import Mathlib

/-!
Shallow embedding of `src/apputil.py` (class `MarkovText`): a Markov text
model with a k-gram transition table (`get_term_dict`) and a random text
generator (`generate`).

Modelling conventions:
* Python dict keys are either single tokens (`k = 1`) or tuples of tokens
  (`k > 1`); both are represented by the inductive `Key`.
* The Python `dict` (insertion-ordered) is an association list
  `List (Key × List String)` with insertion-ordered keys; `defaultdict`'s
  auto-vivifying append is `appendEntry`.
* Randomness: `random.choice(seq)` returns `seq[i]` for some index
  `i < seq.length`; each call is modelled by an oracle `choices : Nat → Nat`
  giving the raw pick of the n-th draw, reduced modulo the sequence length.
  On an empty sequence `random.choice` raises `IndexError`.
* Exceptions become `Except PyErr`; `ValueError` carries the f-string
  message built exactly as in the source.
* Machine integers are `Int` (Python ints are unbounded); `range n` for a
  possibly-negative `n` is `List.range n.toNat`.
-/

namespace MarkovSpec

/-- A Python dict key of `term_dict`: a bare token (`k = 1`) or a tuple of
tokens (`k > 1`). Also the type of `seed_term` arguments. -/
inductive Key where
  | str : String → Key
  | tup : List String → Key
deriving DecidableEq, Repr

/-- Python exceptions raised by `generate`: `IndexError` (from
`random.choice` on an empty sequence) and `ValueError` with its message. -/
inductive PyErr where
  | indexError : PyErr
  | valueError : String → PyErr
deriving DecidableEq, Repr

/-- Helper for `tokenize`: walk the characters, accumulating the current
word in reverse; whitespace ends a word, runs produce no empty words. -/
def tokenizeAux : List Char → List Char → List String
  | [], [] => []
  | [], cur => [String.mk cur.reverse]
  | c :: rest, cur =>
    if c.isWhitespace then
      match cur with
      | [] => tokenizeAux rest []
      | _ => String.mk cur.reverse :: tokenizeAux rest []
    else tokenizeAux rest (c :: cur)

/-- Model of `self.corpus.split()`, Python's no-argument `str.split`: split on runs
of whitespace, discarding empty pieces (the empty string yields no
tokens). -/
def tokenize (s : String) : List String :=
  tokenizeAux s.data []

/-- The key built at index `i`: `tokens[i]` when `k == 1`, else
`tuple(tokens[i:i+k])`. -/
def keyAt (tokens : List String) (k i : Nat) : Key :=
  if k = 1 then Key.str (tokens.getD i "") else Key.tup ((tokens.drop i).take k)

/-- Model of `term_dict[current_state].append(next_token)` on a `defaultdict(list)`,
as an explicit get-or-insert-empty-then-append on an insertion-ordered
association list. -/
def appendEntry (t : List (Key × List String)) (K : Key) (v : String) :
    List (Key × List String) :=
  match t with
  | [] => [(K, [v])]
  | (K2, l) :: rest =>
    if K2 = K then (K2, l ++ [v]) :: rest else (K2, l) :: appendEntry rest K v

/-- One iteration of the `get_term_dict` loop body at index `i`. -/
def buildStep (tokens : List String) (k : Nat) (t : List (Key × List String))
    (i : Nat) : List (Key × List String) :=
  appendEntry t (keyAt tokens k i) (tokens.getD (i + k) "")

/-- The loop of `get_term_dict`: `for i in range(len(tokens) - self.k)`,
appending `tokens[i + k]` under the key `keyAt tokens k i`. -/
def buildTable (tokens : List String) (k : Nat) : List (Key × List String) :=
  (List.range (tokens.length - k)).foldl (buildStep tokens k) []

/-- The table `get_term_dict` computes for a given corpus and `k`. -/
def getTermDictTable (corpus : String) (k : Nat) : List (Key × List String) :=
  buildTable (tokenize corpus) k

/-- The `MarkovText` instance state: `corpus`, `k`, and the `term_dict`
attribute (`None` until built). -/
structure MarkovText where
  corpus : String
  k : Nat
  termDict : Option (List (Key × List String))

/-- Model of `get_term_dict(self)`: recomputes the table from `self.corpus` and
`self.k`, stores it in `self.term_dict`, and returns it.  Modelled by
explicit state passing: result value and updated instance. -/
def MarkovText.getTermDict (m : MarkovText) :
    List (Key × List String) × MarkovText :=
  let t := getTermDictTable m.corpus m.k
  (t, ⟨m.corpus, m.k, some t⟩)

/-- Dict lookup `t[K]` / membership `K in t` on the association list. -/
def lookup (t : List (Key × List String)) (K : Key) : Option (List String) :=
  match t with
  | [] => none
  | (K2, l) :: rest => if K2 = K then some l else lookup rest K

/-- The spec's `EmptyModelError`, realized in the source as the
`IndexError` that `random.choice` raises on the empty key list. -/
def EmptyModelError : PyErr := PyErr.indexError

/-- Python `str` of a tuple of strings, used by the f-string in the
seed-not-found message (trailing comma for a 1-tuple, quoting unescaped). -/
def pyTupleRepr (ts : List String) : String :=
  match ts with
  | [t] => "('" ++ t ++ "',)"
  | _ => "(" ++ String.intercalate ", " (ts.map (fun t => "'" ++ t ++ "'")) ++ ")"

/-- How `f"{seed_term}"` renders a seed: a bare string verbatim, a tuple by
its Python repr. -/
def keyText (K : Key) : String :=
  match K with
  | Key.str s => s
  | Key.tup ts => pyTupleRepr ts

/-- The spec's `InvalidSeedShapeError`: the `ValueError` raised when `k > 1`
and `seed_term` is a bare string. -/
def InvalidSeedShapeError (k : Nat) : PyErr :=
  PyErr.valueError
    ("For k=" ++ toString k ++ ", seed_term must be a tuple of " ++
      toString k ++ " words")

/-- The spec's `SeedNotFoundError`: the `ValueError` raised when the seed is
not a key of `term_dict`; its message names the missing context. -/
def SeedNotFoundError (K : Key) : PyErr :=
  PyErr.valueError ("Seed term '" ++ keyText K ++ "' not found in corpus")

/-- Model of `isinstance(seed_term, str)`. -/
def isStr (K : Key) : Bool :=
  match K with
  | Key.str _ => true
  | Key.tup _ => false

/-- Initial `generated_words`: `[current_state]` when `k == 1`, else
`list(current_state)`.  The two mismatched branches (`k == 1` with a tuple
state, `k > 1` with a string state) are unreachable in the source — a `k=1`
table has only string keys and the shape check rejects string seeds for
`k > 1`; for the latter `list` of a Python string yields its characters. -/
def initWords (k : Nat) (st : Key) : List String :=
  if k = 1 then
    match st with
    | Key.str s => [s]
    | Key.tup _ => []
  else
    match st with
    | Key.str s => s.data.map (fun c => String.mk [c])
    | Key.tup ts => ts

/-- Seed handling of `generate` (lines 79–94): pick a random key when no
seed is given (IndexError on an empty table), else check shape and table
membership. `r` is the raw random pick for the key choice. -/
def startState (td : List (Key × List String)) (k : Nat) (seed : Option Key)
    (r : Nat) : Except PyErr Key :=
  match seed with
  | none =>
    let ks := td.map Prod.fst
    if ks.length = 0 then Except.error PyErr.indexError
    else Except.ok (ks.getD (r % ks.length) (Key.str ""))
  | some s =>
    if 1 < k && isStr s then Except.error (InvalidSeedShapeError k)
    else if (lookup td s).isNone then Except.error (SeedNotFoundError s)
    else Except.ok s

/-- The generation loop of `generate` (lines 104–120): `fuel` iterations of
`for _ in range(words_to_generate)`, breaking when the current state has no
entry or an empty successor list; `step` indexes the random oracle.
`generated_words[-k:]` is the last `min k len` elements (`k ≥ 1` always,
per the spec's `k ≥ 1` contract). -/
def genLoop (td : List (Key × List String)) (k : Nat) (choices : Nat → Nat) :
    Nat → Nat → List String → Key → List String
  | 0, _, ws, _ => ws
  | fuel + 1, step, ws, st =>
    match lookup td st with
    | none => ws
    | some l =>
      if l.length = 0 then ws
      else
        let nw := l.getD (choices step % l.length) ""
        let ws2 := ws ++ [nw]
        let st2 := if k = 1 then Key.str nw else Key.tup (ws2.drop (ws2.length - k))
        genLoop td k choices fuel (step + 1) ws2 st2

/-- Number of successor draws `genLoop` performs (loop iterations that do
not break). -/
def genLoopDraws (td : List (Key × List String)) (k : Nat)
    (choices : Nat → Nat) : Nat → Nat → List String → Key → Nat
  | 0, _, _, _ => 0
  | fuel + 1, step, ws, st =>
    match lookup td st with
    | none => 0
    | some l =>
      if l.length = 0 then 0
      else
        let nw := l.getD (choices step % l.length) ""
        let ws2 := ws ++ [nw]
        let st2 := if k = 1 then Key.str nw else Key.tup (ws2.drop (ws2.length - k))
        genLoopDraws td k choices fuel (step + 1) ws2 st2 + 1

/-- Model of `generate(self, seed_term, term_count)` up to the final join:
builds the table if `self.term_dict is None`, resolves the start state,
then runs the loop for `term_count - len(generated_words)` iterations
(empty `range` when negative).  When no seed is given the key pick consumes
the first random draw, so the loop's draws start at oracle index 1. -/
def generateWords (m : MarkovText) (seed : Option Key) (termCount : Int)
    (choices : Nat → Nat) : Except PyErr (List String) :=
  let td := match m.termDict with
    | none => getTermDictTable m.corpus m.k
    | some t => t
  match startState td m.k seed (choices 0) with
  | Except.error e => Except.error e
  | Except.ok st =>
    let ws := initWords m.k st
    Except.ok (genLoop td m.k choices (termCount - (ws.length : Int)).toNat
      (if seed.isNone then 1 else 0) ws st)

/-- Number of successor draws a `generate` call performs (0 on the error
paths). -/
def generateDraws (m : MarkovText) (seed : Option Key) (termCount : Int)
    (choices : Nat → Nat) : Nat :=
  let td := match m.termDict with
    | none => getTermDictTable m.corpus m.k
    | some t => t
  match startState td m.k seed (choices 0) with
  | Except.error _ => 0
  | Except.ok st =>
    let ws := initWords m.k st
    genLoopDraws td m.k choices (termCount - (ws.length : Int)).toNat
      (if seed.isNone then 1 else 0) ws st

/-- Model of `generate`: the word list joined by single spaces. -/
def generate (m : MarkovText) (seed : Option Key) (termCount : Int)
    (choices : Nat → Nat) : Except PyErr String :=
  (generateWords m seed termCount choices).map (String.intercalate " ")

/-- Spec-side definition (for refinement only), from the spec's invariant:
the successors of context `K` are `tokens[i+k]` for every `i` in
`[0, len(tokens)-k-1]` whose window `tokens[i..i+k)` forms `K`, in corpus
order. -/
def succsSpec (tokens : List String) (k : Nat) (K : Key) : List String :=
  (((List.range (tokens.length - k)).filter
      (fun i => keyAt tokens k i == K)).map (fun i => tokens.getD (i + k) ""))

/-- The context formed by the trailing `k` tokens of the output sequence
(for `k = 1`, the last appended token). -/
def keyLast (k : Nat) (ws : List String) : Key :=
  if k = 1 then Key.str (ws.getLast?.getD "")
  else Key.tup (ws.drop (ws.length - k))

/-- Total number of successor-list entries in a table. -/
def sumVals (t : List (Key × List String)) : Nat :=
  (t.map (fun p => p.2.length)).sum

/-- The successors contributed by the loop indices `is`, in order. -/
def succsAlong (tokens : List String) (k : Nat) (is : List Nat) (K : Key) :
    List String :=
  (is.filter (fun i => keyAt tokens k i == K)).map (fun i => tokens.getD (i + k) "")

theorem succsSpec_eq_succsAlong (tokens : List String) (k : Nat) (K : Key) :
    succsSpec tokens k K = succsAlong tokens k (List.range (tokens.length - k)) K :=
  rfl

theorem lookup_appendEntry (t : List (Key × List String)) (K : Key) (v : String)
    (q : Key) :
    lookup (appendEntry t K v) q =
      if q = K then some ((lookup t q).getD [] ++ [v]) else lookup t q := by
  induction t with
  | nil =>
    simp only [appendEntry, lookup, Option.getD_none, List.nil_append]
    by_cases h : K = q
    · rw [if_pos h, if_pos h.symm]
    · rw [if_neg h, if_neg (fun hh => h hh.symm)]
  | cons p rest ih =>
    obtain ⟨K2, l⟩ := p
    by_cases h2 : K2 = K
    · subst h2
      simp only [appendEntry, if_pos rfl, lookup]
      by_cases hq : K2 = q
      · simp only [if_pos hq, if_pos hq.symm, Option.getD_some]
      · simp only [if_neg hq, if_neg (fun hh : q = K2 => hq hh.symm)]
    · simp only [appendEntry, if_neg h2, lookup]
      by_cases hq : K2 = q
      · have hqK : ¬ q = K := fun hh => h2 (hq.trans hh)
        simp only [if_pos hq, if_neg hqK]
      · simp only [if_neg hq, ih]

theorem lookup_foldl_getD (tokens : List String) (k : Nat) (is : List Nat) :
    ∀ (t : List (Key × List String)) (q : Key),
      (lookup (is.foldl (buildStep tokens k) t) q).getD [] =
        (lookup t q).getD [] ++ succsAlong tokens k is q := by
  induction is with
  | nil => intro t q; simp [succsAlong]
  | cons i is ih =>
    intro t q
    rw [List.foldl_cons, ih]
    have hstep : lookup (buildStep tokens k t i) q =
        if q = keyAt tokens k i then
          some ((lookup t q).getD [] ++ [tokens.getD (i + k) ""])
        else lookup t q :=
      lookup_appendEntry t _ _ q
    by_cases h : q = keyAt tokens k i
    · have hb : (keyAt tokens k i == q) = true := by simp [h.symm]
      rw [hstep, if_pos h]
      simp [succsAlong, List.filter_cons, hb, h.symm]
    · have hb : (keyAt tokens k i == q) = false := by
        simp only [beq_eq_false_iff_ne, ne_eq]
        exact fun hh => h hh.symm
      rw [hstep, if_neg h]
      simp [succsAlong, List.filter_cons, hb]

theorem lookup_foldl_eq_none (tokens : List String) (k : Nat) (is : List Nat) :
    ∀ (t : List (Key × List String)) (q : Key),
      lookup (is.foldl (buildStep tokens k) t) q = none ↔
        (lookup t q = none ∧ succsAlong tokens k is q = []) := by
  induction is with
  | nil => intro t q; simp [succsAlong]
  | cons i is ih =>
    intro t q
    rw [List.foldl_cons, ih]
    have hstep : lookup (buildStep tokens k t i) q =
        if q = keyAt tokens k i then
          some ((lookup t q).getD [] ++ [tokens.getD (i + k) ""])
        else lookup t q :=
      lookup_appendEntry t _ _ q
    by_cases h : q = keyAt tokens k i
    · have hb : (keyAt tokens k i == q) = true := by simp [h.symm]
      rw [hstep, if_pos h]
      simp [succsAlong, List.filter_cons, hb]
    · have hb : (keyAt tokens k i == q) = false := by
        simp only [beq_eq_false_iff_ne, ne_eq]
        exact fun hh => h hh.symm
      rw [hstep, if_neg h]
      simp [succsAlong, List.filter_cons, hb]

theorem lookup_buildTable (tokens : List String) (k : Nat) (q : Key) :
    lookup (buildTable tokens k) q =
      if succsSpec tokens k q = [] then none else some (succsSpec tokens k q) := by
  have hgetD := lookup_foldl_getD tokens k (List.range (tokens.length - k)) [] q
  have hnone := lookup_foldl_eq_none tokens k (List.range (tokens.length - k)) [] q
  rw [succsSpec_eq_succsAlong]
  by_cases h : succsAlong tokens k (List.range (tokens.length - k)) q = []
  · rw [if_pos h]
    exact hnone.2 ⟨by simp [lookup], h⟩
  · rw [if_neg h]
    cases hl : lookup (buildTable tokens k) q with
    | none =>
      exact absurd ((hnone.1 hl).2) h
    | some l =>
      have : l = succsAlong tokens k (List.range (tokens.length - k)) q := by
        have := hgetD
        rw [show (List.range (tokens.length - k)).foldl (buildStep tokens k) [] =
          buildTable tokens k from rfl, hl] at this
        simpa [lookup] using this
      rw [this]

theorem keys_appendEntry (t : List (Key × List String)) (K : Key) (v : String) :
    (appendEntry t K v).map Prod.fst =
      if K ∈ t.map Prod.fst then t.map Prod.fst else t.map Prod.fst ++ [K] := by
  induction t with
  | nil => simp [appendEntry]
  | cons p rest ih =>
    obtain ⟨K2, l⟩ := p
    by_cases h2 : K2 = K
    · subst h2
      simp [appendEntry]
    · simp only [appendEntry, if_neg h2, List.map_cons, List.mem_cons]
      have hne : ¬ K = K2 := fun hh => h2 hh.symm
      by_cases hmem : K ∈ rest.map Prod.fst
      · simp [ih, hmem, hne]
      · simp [ih, hmem, hne]

theorem length_appendEntry (t : List (Key × List String)) (K : Key) (v : String) :
    (appendEntry t K v).length ≤ t.length + 1 := by
  have h := congrArg List.length (keys_appendEntry t K v)
  simp only [List.length_map] at h
  rw [h]
  by_cases hmem : K ∈ t.map Prod.fst
  · simp [hmem]
  · simp [hmem]

theorem sumVals_appendEntry (t : List (Key × List String)) (K : Key) (v : String) :
    sumVals (appendEntry t K v) = sumVals t + 1 := by
  induction t with
  | nil => simp [appendEntry, sumVals]
  | cons p rest ih =>
    obtain ⟨K2, l⟩ := p
    by_cases h2 : K2 = K
    · subst h2
      simp [appendEntry, sumVals]
      omega
    · simp only [appendEntry, if_neg h2, sumVals, List.map_cons, List.sum_cons] at *
      omega

theorem nodup_keys_appendEntry (t : List (Key × List String)) (K : Key)
    (v : String) (h : (t.map Prod.fst).Nodup) :
    ((appendEntry t K v).map Prod.fst).Nodup := by
  rw [keys_appendEntry]
  by_cases hmem : K ∈ t.map Prod.fst
  · simpa [hmem] using h
  · simp only [if_neg hmem]
    simp [List.nodup_append, h, hmem]

theorem mem_keys_appendEntry (t : List (Key × List String)) (K : Key)
    (v : String) (q : Key) (h : q ∈ (appendEntry t K v).map Prod.fst) :
    q ∈ t.map Prod.fst ∨ q = K := by
  rw [keys_appendEntry] at h
  by_cases hmem : K ∈ t.map Prod.fst
  · rw [if_pos hmem] at h; exact Or.inl h
  · rw [if_neg hmem] at h
    rcases List.mem_append.1 h with h1 | h1
    · exact Or.inl h1
    · exact Or.inr (List.mem_singleton.1 h1)

theorem sumVals_foldl (tokens : List String) (k : Nat) (is : List Nat) :
    ∀ t : List (Key × List String),
      sumVals (is.foldl (buildStep tokens k) t) = sumVals t + is.length := by
  induction is with
  | nil => intro t; simp
  | cons i is ih =>
    intro t
    rw [List.foldl_cons, ih, buildStep, sumVals_appendEntry]
    simp
    omega

theorem length_foldl (tokens : List String) (k : Nat) (is : List Nat) :
    ∀ t : List (Key × List String),
      (is.foldl (buildStep tokens k) t).length ≤ t.length + is.length := by
  induction is with
  | nil => intro t; simp
  | cons i is ih =>
    intro t
    rw [List.foldl_cons]
    have h1 := ih (buildStep tokens k t i)
    have h2 : (buildStep tokens k t i).length ≤ t.length + 1 :=
      length_appendEntry t (keyAt tokens k i) (tokens.getD (i + k) "")
    simp only [List.length_cons]
    omega

theorem nodup_keys_foldl (tokens : List String) (k : Nat) (is : List Nat) :
    ∀ t : List (Key × List String), (t.map Prod.fst).Nodup →
      ((is.foldl (buildStep tokens k) t).map Prod.fst).Nodup := by
  induction is with
  | nil => intro t h; simpa using h
  | cons i is ih =>
    intro t h
    rw [List.foldl_cons]
    exact ih _ (nodup_keys_appendEntry t _ _ h)

theorem mem_keys_foldl (tokens : List String) (k : Nat) (is : List Nat) :
    ∀ (t : List (Key × List String)) (q : Key),
      q ∈ (is.foldl (buildStep tokens k) t).map Prod.fst →
        q ∈ t.map Prod.fst ∨ ∃ i ∈ is, keyAt tokens k i = q := by
  induction is with
  | nil => intro t q h; exact Or.inl (by simpa using h)
  | cons i is ih =>
    intro t q h
    rw [List.foldl_cons] at h
    rcases ih _ q h with h1 | h1
    · rcases mem_keys_appendEntry t _ _ q h1 with h2 | h2
      · exact Or.inl h2
      · exact Or.inr ⟨i, List.mem_cons_self i is, h2.symm⟩
    · rcases h1 with ⟨j, hj, hjq⟩
      exact Or.inr ⟨j, List.mem_cons_of_mem i hj, hjq⟩

theorem keyAt_shape (tokens : List String) (k i : Nat)
    (hi : i < tokens.length - k) :
    (k = 1 → ∃ s, keyAt tokens k i = Key.str s) ∧
      (k ≠ 1 → ∃ ts, keyAt tokens k i = Key.tup ts ∧ ts.length = k) := by
  constructor
  · intro hk; subst hk
    exact ⟨tokens.getD i "", by simp [keyAt]⟩
  · intro hk
    refine ⟨(tokens.drop i).take k, by simp [keyAt, hk], ?_⟩
    simp only [List.length_take, List.length_drop]
    omega

theorem buildTable_key_shape (tokens : List String) (k : Nat) (q : Key)
    (h : q ∈ (buildTable tokens k).map Prod.fst) :
    (k = 1 → ∃ s, q = Key.str s) ∧
      (k ≠ 1 → ∃ ts, q = Key.tup ts ∧ ts.length = k) := by
  rcases mem_keys_foldl tokens k (List.range (tokens.length - k)) [] q h with h1 | h1
  · simp at h1
  · rcases h1 with ⟨i, hi, hiq⟩
    have := keyAt_shape tokens k i (List.mem_range.1 hi)
    rw [hiq] at this
    exact this

theorem lookup_ne_none_iff_mem_keys (t : List (Key × List String)) (q : Key) :
    lookup t q ≠ none ↔ q ∈ t.map Prod.fst := by
  induction t with
  | nil => simp [lookup]
  | cons p rest ih =>
    obtain ⟨K2, l⟩ := p
    simp only [lookup, List.map_cons, List.mem_cons]
    by_cases h : K2 = q
    · simp [h]
    · simp only [if_neg h, ih]
      constructor
      · exact fun hh => Or.inr hh
      · rintro (hh | hh)
        · exact absurd hh.symm h
        · exact hh

theorem lookup_buildTable_ne_nil (tokens : List String) (k : Nat) (q : Key)
    (l : List String) (h : lookup (buildTable tokens k) q = some l) : l ≠ [] := by
  rw [lookup_buildTable] at h
  by_cases hs : succsSpec tokens k q = []
  · rw [if_pos hs] at h; exact absurd h (by simp)
  · rw [if_neg hs] at h
    cases h
    exact hs

theorem genLoop_succ_of_some (td : List (Key × List String)) (k : Nat)
    (choices : Nat → Nat) (fuel step : Nat) (ws : List String) (st : Key)
    (l : List String) (hl : lookup td st = some l) (hne : l.length ≠ 0) :
    genLoop td k choices (fuel + 1) step ws st =
      genLoop td k choices fuel (step + 1)
        (ws ++ [l.getD (choices step % l.length) ""])
        (if k = 1 then Key.str (l.getD (choices step % l.length) "")
         else Key.tup ((ws ++ [l.getD (choices step % l.length) ""]).drop
           ((ws ++ [l.getD (choices step % l.length) ""]).length - k))) := by
  simp [genLoop, hl, hne]

theorem genLoopDraws_succ_of_some (td : List (Key × List String)) (k : Nat)
    (choices : Nat → Nat) (fuel step : Nat) (ws : List String) (st : Key)
    (l : List String) (hl : lookup td st = some l) (hne : l.length ≠ 0) :
    genLoopDraws td k choices (fuel + 1) step ws st =
      genLoopDraws td k choices fuel (step + 1)
        (ws ++ [l.getD (choices step % l.length) ""])
        (if k = 1 then Key.str (l.getD (choices step % l.length) "")
         else Key.tup ((ws ++ [l.getD (choices step % l.length) ""]).drop
           ((ws ++ [l.getD (choices step % l.length) ""]).length - k))) + 1 := by
  simp [genLoopDraws, hl, hne]

theorem genLoop_stop (td : List (Key × List String)) (k : Nat)
    (choices : Nat → Nat) (fuel step : Nat) (ws : List String) (st : Key)
    (h : (lookup td st).getD [] = []) :
    genLoop td k choices fuel step ws st = ws := by
  cases fuel with
  | zero => rfl
  | succ fuel =>
    cases hl : lookup td st with
    | none => simp [genLoop, hl]
    | some l =>
      rw [hl] at h
      simp only [Option.getD_some] at h
      subst h
      simp [genLoop, hl]

theorem genLoop_drop_front (td : List (Key × List String)) (k : Nat)
    (choices : Nat → Nat) :
    ∀ (fuel step : Nat) (ws : List String) (st : Key),
      ∃ t2, genLoop td k choices fuel step ws st = ws ++ t2 := by
  intro fuel
  induction fuel with
  | zero => intro step ws st; exact ⟨[], by simp [genLoop]⟩
  | succ fuel ih =>
    intro step ws st
    cases hl : lookup td st with
    | none => exact ⟨[], by simp [genLoop, hl]⟩
    | some l =>
      by_cases hne : l.length = 0
      · exact ⟨[], by simp [genLoop, hl, hne]⟩
      · rw [genLoop_succ_of_some td k choices fuel step ws st l hl hne]
        obtain ⟨t2, ht2⟩ := ih (step + 1)
          (ws ++ [l.getD (choices step % l.length) ""]) _
        exact ⟨l.getD (choices step % l.length) "" :: t2, by
          rw [ht2]; simp⟩

theorem genLoop_length (td : List (Key × List String)) (k : Nat)
    (choices : Nat → Nat) :
    ∀ (fuel step : Nat) (ws : List String) (st : Key),
      (genLoop td k choices fuel step ws st).length =
        ws.length + genLoopDraws td k choices fuel step ws st := by
  intro fuel
  induction fuel with
  | zero => intro step ws st; simp [genLoop, genLoopDraws]
  | succ fuel ih =>
    intro step ws st
    cases hl : lookup td st with
    | none => simp [genLoop, genLoopDraws, hl]
    | some l =>
      by_cases hne : l.length = 0
      · simp [genLoop, genLoopDraws, hl, hne]
      · rw [genLoop_succ_of_some td k choices fuel step ws st l hl hne,
          genLoopDraws_succ_of_some td k choices fuel step ws st l hl hne, ih]
        simp
        omega

theorem genLoopDraws_le_fuel (td : List (Key × List String)) (k : Nat)
    (choices : Nat → Nat) :
    ∀ (fuel step : Nat) (ws : List String) (st : Key),
      genLoopDraws td k choices fuel step ws st ≤ fuel := by
  intro fuel
  induction fuel with
  | zero => intro step ws st; simp [genLoopDraws]
  | succ fuel ih =>
    intro step ws st
    cases hl : lookup td st with
    | none => simp [genLoopDraws, hl]
    | some l =>
      by_cases hne : l.length = 0
      · simp [genLoopDraws, hl, hne]
      · rw [genLoopDraws_succ_of_some td k choices fuel step ws st l hl hne]
        have := ih (step + 1) (ws ++ [l.getD (choices step % l.length) ""])
          (if k = 1 then Key.str (l.getD (choices step % l.length) "")
           else Key.tup ((ws ++ [l.getD (choices step % l.length) ""]).drop
             ((ws ++ [l.getD (choices step % l.length) ""]).length - k)))
        omega

theorem keyLast_step (k : Nat) (ws : List String) (nw : String) :
    (if k = 1 then Key.str nw
     else Key.tup ((ws ++ [nw]).drop ((ws ++ [nw]).length - k))) =
      keyLast k (ws ++ [nw]) := by
  by_cases hk : k = 1
  · subst hk
    simp [keyLast, List.getLast?_concat]
  · simp [keyLast, hk]

theorem genLoop_chain (td : List (Key × List String)) (k : Nat)
    (choices : Nat → Nat) :
    ∀ (fuel step : Nat) (ws : List String) (st : Key), st = keyLast k ws →
      ∀ j, ws.length ≤ j →
        j < (genLoop td k choices fuel step ws st).length →
        (genLoop td k choices fuel step ws st).getD j "" ∈
          (lookup td
            (keyLast k ((genLoop td k choices fuel step ws st).take j))).getD [] := by
  intro fuel
  induction fuel with
  | zero =>
    intro step ws st hst j hj1 hj2
    simp only [genLoop, List.length_nil] at hj2
    omega
  | succ fuel ih =>
    intro step ws st hst j hj1 hj2
    cases hl : lookup td st with
    | none =>
      rw [genLoop_stop td k choices (fuel + 1) step ws st (by simp [hl])] at hj2
      omega
    | some l =>
      by_cases hne : l.length = 0
      · rw [genLoop_stop td k choices (fuel + 1) step ws st
          (by simp [hl, List.length_eq_zero.1 hne])] at hj2
        omega
      · have hrec := genLoop_succ_of_some td k choices fuel step ws st l hl hne
        rw [hrec] at hj2 ⊢
        have hst2 := keyLast_step k ws (l.getD (choices step % l.length) "")
        by_cases hj : ws.length + 1 ≤ j
        · exact ih (step + 1) (ws ++ [l.getD (choices step % l.length) ""]) _
            hst2 j (by simpa using hj) hj2
        · have hje : j = ws.length := by omega
          subst hje
          obtain ⟨t2, ht2⟩ := genLoop_drop_front td k choices fuel (step + 1)
            (ws ++ [l.getD (choices step % l.length) ""])
            (if k = 1 then Key.str (l.getD (choices step % l.length) "")
             else Key.tup ((ws ++ [l.getD (choices step % l.length) ""]).drop
               ((ws ++ [l.getD (choices step % l.length) ""]).length - k)))
          rw [ht2, List.append_assoc]
          have htake : (ws ++ ([l.getD (choices step % l.length) ""] ++ t2)).take
              ws.length = ws := List.take_left ws _
          have hgetD : (ws ++ ([l.getD (choices step % l.length) ""] ++ t2)).getD
              ws.length "" = l.getD (choices step % l.length) "" := by
            rw [List.getD_append_right ws _ "" ws.length (le_refl _)]
            simp
          rw [htake, hgetD, ← hst, hl]
          have hlt : choices step % l.length < l.length :=
            Nat.mod_lt _ (Nat.pos_of_ne_zero hne)
          rw [Option.getD_some, List.getD_eq_getElem l "" hlt]
          exact List.getElem_mem hlt

theorem startState_ok_shape (corpus : String) (k : Nat) (seed : Option Key)
    (r : Nat) (st : Key)
    (h : startState (getTermDictTable corpus k) k seed r = Except.ok st) :
    (k = 1 → ∃ s, st = Key.str s) ∧
      (k ≠ 1 → ∃ ts, st = Key.tup ts ∧ ts.length = k) := by
  have hmem : st ∈ (getTermDictTable corpus k).map Prod.fst := by
    cases seed with
    | none =>
      simp only [startState] at h
      by_cases hks : ((getTermDictTable corpus k).map Prod.fst).length = 0
      · rw [if_pos hks] at h
        exact absurd h (by simp)
      · rw [if_neg hks] at h
        simp only [Except.ok.injEq] at h
        have hlt : r % ((getTermDictTable corpus k).map Prod.fst).length <
            ((getTermDictTable corpus k).map Prod.fst).length :=
          Nat.mod_lt _ (Nat.pos_of_ne_zero hks)
        rw [List.getD_eq_getElem _ _ hlt] at h
        rw [← h]
        exact List.getElem_mem hlt
    | some s =>
      simp only [startState] at h
      by_cases hshape : (1 < k && isStr s) = true
      · rw [if_pos hshape] at h
        exact absurd h (by simp)
      · rw [if_neg hshape] at h
        by_cases hlook : (lookup (getTermDictTable corpus k) s).isNone = true
        · rw [if_pos hlook] at h
          exact absurd h (by simp)
        · rw [if_neg hlook] at h
          simp only [Except.ok.injEq] at h
          rw [← h]
          exact (lookup_ne_none_iff_mem_keys _ s).1
            (fun hh => hlook (by simp [hh]))
  exact buildTable_key_shape (tokenize corpus) k st hmem

theorem initWords_facts (k : Nat) (st : Key)
    (h : (k = 1 → ∃ s, st = Key.str s) ∧
      (k ≠ 1 → ∃ ts, st = Key.tup ts ∧ ts.length = k)) :
    (initWords k st).length = k ∧ keyLast k (initWords k st) = st := by
  by_cases hk : k = 1
  · obtain ⟨s, rfl⟩ := h.1 hk
    subst hk
    simp [initWords, keyLast]
  · obtain ⟨ts, rfl, hlen⟩ := h.2 hk
    refine ⟨by simp [initWords, hk, hlen], ?_⟩
    simp [initWords, keyLast, hk, hlen]

theorem generateWords_ok_elim (corpus : String) (k : Nat) (seed : Option Key)
    (tc : Int) (choices : Nat → Nat) (out : List String)
    (h : generateWords ⟨corpus, k, none⟩ seed tc choices = Except.ok out) :
    ∃ st, startState (getTermDictTable corpus k) k seed (choices 0) = Except.ok st ∧
      out = genLoop (getTermDictTable corpus k) k choices
        (tc - ((initWords k st).length : Int)).toNat
        (if seed.isNone then 1 else 0) (initWords k st) st ∧
      generateDraws ⟨corpus, k, none⟩ seed tc choices =
        genLoopDraws (getTermDictTable corpus k) k choices
          (tc - ((initWords k st).length : Int)).toNat
          (if seed.isNone then 1 else 0) (initWords k st) st := by
  simp only [generateWords, generateDraws] at h ⊢
  cases hst : startState (getTermDictTable corpus k) k seed (choices 0) with
  | error e =>
    rw [hst] at h
    exact absurd h (by simp)
  | ok st =>
    rw [hst] at h
    simp only [Except.ok.injEq] at h
    exact ⟨st, rfl, h.symm, rfl⟩

/-- C1: for every corpus and every `k ≥ 1`, the table built by
`get_term_dict` maps each context key exactly to the ordered list of
`tokens[i+k]` over the indices `i < len(tokens) - k` whose window
`tokens[i..i+k)` forms that key, and has no other entries (lookup of any
other key is `none`); in particular, for the scenario corpus and `k = 1`
the entry for `"the"` is `["cat","mat","cat"]` and for `"cat"` is
`["sat","ran"]`. -/
theorem claim1_table_contents :
    (∀ (corpus : String) (k : Nat), 1 ≤ k → ∀ K : Key,
      lookup (getTermDictTable corpus k) K =
        if succsSpec (tokenize corpus) k K = [] then none
        else some (succsSpec (tokenize corpus) k K)) ∧
    lookup (getTermDictTable "the cat sat on the mat the cat ran" 1)
      (Key.str "the") = some ["cat", "mat", "cat"] ∧
    lookup (getTermDictTable "the cat sat on the mat the cat ran" 1)
      (Key.str "cat") = some ["sat", "ran"] := by
  refine ⟨fun corpus k _ K => lookup_buildTable (tokenize corpus) k K, ?_, ?_⟩
  · decide
  · decide

/-- Witness for C1 at corpus `"a b"`, `k = 1`, key `"a"`. -/
theorem claim1_witness :
    lookup (getTermDictTable "a b" 1) (Key.str "a") =
      if succsSpec (tokenize "a b") 1 (Key.str "a") = [] then none
      else some (succsSpec (tokenize "a b") 1 (Key.str "a")) :=
  claim1_table_contents.1 "a b" 1 (by decide) (Key.str "a")

/-- C2: every token a successful `generate` run appends after the seed is an
element of the table's successor list for the context formed by the trailing
`k` tokens of the output before it, and when the current context has no
entry or an empty successor list the loop stops and returns the accumulated
words (no error). -/
theorem claim2_successor_invariant :
    (∀ (corpus : String) (k : Nat) (seed : Option Key) (tc : Int)
      (choices : Nat → Nat) (out : List String), 1 ≤ k →
      generateWords ⟨corpus, k, none⟩ seed tc choices = Except.ok out →
      ∀ j, k ≤ j → j < out.length →
        out.getD j "" ∈
          (lookup (getTermDictTable corpus k) (keyLast k (out.take j))).getD []) ∧
    (∀ (td : List (Key × List String)) (k : Nat) (choices : Nat → Nat)
      (fuel step : Nat) (ws : List String) (st : Key),
      (lookup td st).getD [] = [] →
      genLoop td k choices fuel step ws st = ws) := by
  constructor
  · intro corpus k seed tc choices out hk hok j hj1 hj2
    obtain ⟨st, hst, hout, -⟩ :=
      generateWords_ok_elim corpus k seed tc choices out hok
    have hshape := startState_ok_shape corpus k seed (choices 0) st hst
    have hfacts := initWords_facts k st hshape
    subst hout
    exact genLoop_chain (getTermDictTable corpus k) k choices _ _
      (initWords k st) st hfacts.2.symm j (by rw [hfacts.1]; exact hj1) hj2
  · intro td k choices fuel step ws st h
    exact genLoop_stop td k choices fuel step ws st h

/-- Witness for C2 at corpus `"a b c"`, `k = 1`, seed `"a"`,
`term_count = 3`, a constant-0 oracle, output `["a","b","c"]`, index 1. -/
theorem claim2_witness :
    (["a", "b", "c"] : List String).getD 1 "" ∈
      (lookup (getTermDictTable "a b c" 1)
        (keyLast 1 ((["a", "b", "c"] : List String).take 1))).getD [] :=
  claim2_successor_invariant.1 "a b c" 1 (some (Key.str "a")) 3 (fun _ => 0)
    ["a", "b", "c"] (by decide) (by rfl) 1 (by decide) (by decide)

/-- C3 counterexample: at corpus `"a b"`, `k = 1`, seed `"a"`,
`term_count = 0`, the run makes 0 draws and returns the 1-token seed, but
the claimed formula `min(target_length, seed_length + chain_length)` gives
`min 0 (1 + 0) = 0 ≠ 1`: the code never truncates the seed. -/
theorem claim3_counterexample :
    generateWords ⟨"a b", 1, none⟩ (some (Key.str "a")) 0 (fun _ => 0) =
      Except.ok ["a"] ∧
    generateDraws ⟨"a b", 1, none⟩ (some (Key.str "a")) 0 (fun _ => 0) = 0 ∧
    ¬ ((["a"] : List String).length = min 0 (1 + 0)) := by
  refine ⟨by rfl, by decide, by decide⟩

/-- C3 amended: on a successful run the output token count is
`min(target_length, seed_length + draws)` whenever
`target_length ≥ seed_length` (with `seed_length = k`); when
`target_length < seed_length` it is `seed_length`, the untruncated seed. -/
theorem claim3_amended_output_length :
    ∀ (corpus : String) (k : Nat) (seed : Option Key) (tc : Int)
      (choices : Nat → Nat) (out : List String), 1 ≤ k →
      generateWords ⟨corpus, k, none⟩ seed tc choices = Except.ok out →
      ((k : Int) ≤ tc →
        (out.length : Int) =
          min tc ((k : Int) +
            (generateDraws ⟨corpus, k, none⟩ seed tc choices : Int))) ∧
      (tc < (k : Int) → out.length = k) := by
  intro corpus k seed tc choices out hk hok
  obtain ⟨st, hst, hout, hdraws⟩ :=
    generateWords_ok_elim corpus k seed tc choices out hok
  have hshape := startState_ok_shape corpus k seed (choices 0) st hst
  have hfacts := initWords_facts k st hshape
  have hlen : out.length = (initWords k st).length +
      genLoopDraws (getTermDictTable corpus k) k choices
        (tc - ((initWords k st).length : Int)).toNat
        (if seed.isNone then 1 else 0) (initWords k st) st := by
    rw [hout]
    exact genLoop_length (getTermDictTable corpus k) k choices _ _ _ st
  have hle := genLoopDraws_le_fuel (getTermDictTable corpus k) k choices
    (tc - ((initWords k st).length : Int)).toNat
    (if seed.isNone then 1 else 0) (initWords k st) st
  rw [hdraws]
  rw [hfacts.1] at hlen hle ⊢
  constructor
  · intro htc
    have hDle : (k : Int) +
        (genLoopDraws (getTermDictTable corpus k) k choices
          (tc - (k : Int)).toNat (if seed.isNone then 1 else 0)
          (initWords k st) st : Int) ≤ tc := by
      omega
    rw [min_eq_right hDle]
    omega
  · intro htc
    omega

/-- Witness for C3's amended statement at corpus `"a b"`, `k = 1`, seed
`"a"`, `term_count = 5`. -/
theorem claim3_witness :
    ((1 : Int) ≤ 5 →
      (((["a", "b"] : List String).length : Int)) =
        min 5 ((1 : Int) +
          (generateDraws ⟨"a b", 1, none⟩ (some (Key.str "a")) 5
            (fun _ => 0) : Int))) ∧
    ((5 : Int) < (1 : Int) → (["a", "b"] : List String).length = 1) :=
  claim3_amended_output_length "a b" 1 (some (Key.str "a")) 5 (fun _ => 0)
    ["a", "b"] (by decide) (by rfl)

/-- C4: when `term_count ≤ k` (the number of seed tokens of any valid seed),
a successful seeded `generate` run performs no draws and returns exactly the
seed tokens joined by single spaces. -/
theorem claim4_short_target_returns_seed :
    ∀ (corpus : String) (k : Nat) (K : Key) (tc : Int) (choices : Nat → Nat)
      (out : List String), 1 ≤ k → tc ≤ (k : Int) →
      generateWords ⟨corpus, k, none⟩ (some K) tc choices = Except.ok out →
      out = initWords k K ∧
      generateDraws ⟨corpus, k, none⟩ (some K) tc choices = 0 ∧
      generate ⟨corpus, k, none⟩ (some K) tc choices =
        Except.ok (String.intercalate " " (initWords k K)) := by
  intro corpus k K tc choices out hk htc hok
  obtain ⟨st, hst, hout, hdraws⟩ :=
    generateWords_ok_elim corpus k (some K) tc choices out hok
  have hstK : st = K := by
    simp only [startState] at hst
    by_cases h1 : (1 < k && isStr K) = true
    · rw [if_pos h1] at hst
      exact absurd hst (by simp)
    · rw [if_neg h1] at hst
      by_cases h2 : (lookup (getTermDictTable corpus k) K).isNone = true
      · rw [if_pos h2] at hst
        exact absurd hst (by simp)
      · rw [if_neg h2] at hst
        simp only [Except.ok.injEq] at hst
        exact hst.symm
  subst hstK
  have hshape := startState_ok_shape corpus k (some st) (choices 0) st hst
  have hfacts := initWords_facts k st hshape
  have hfuel : (tc - ((initWords k st).length : Int)).toNat = 0 := by
    rw [hfacts.1]; omega
  rw [hfuel] at hout hdraws
  have houtK : out = initWords k st := hout
  refine ⟨houtK, hdraws, ?_⟩
  simp only [generate, hok, Except.map]
  rw [houtK]

/-- Witness for C4 at corpus `"a b"`, `k = 1`, seed `"a"`,
`term_count = 1`. -/
theorem claim4_witness :
    (["a"] : List String) = initWords 1 (Key.str "a") ∧
    generateDraws ⟨"a b", 1, none⟩ (some (Key.str "a")) 1 (fun _ => 0) = 0 ∧
    generate ⟨"a b", 1, none⟩ (some (Key.str "a")) 1 (fun _ => 0) =
      Except.ok (String.intercalate " " (initWords 1 (Key.str "a"))) :=
  claim4_short_target_returns_seed "a b" 1 (Key.str "a") 1 (fun _ => 0)
    ["a"] (by decide) (by decide) (by rfl)

/-- C5: a corpus with fewer than `k + 1` tokens yields an empty table, and
`generate` without a seed on such a model fails with the empty-model error
(the `IndexError` from `random.choice` on an empty key list, the spec's
`EmptyModelError`). -/
theorem claim5_empty_model :
    ∀ (corpus : String) (k : Nat) (tc : Int) (choices : Nat → Nat),
      (tokenize corpus).length < k + 1 →
      getTermDictTable corpus k = [] ∧
      generateWords ⟨corpus, k, none⟩ none tc choices =
        Except.error EmptyModelError ∧
      generate ⟨corpus, k, none⟩ none tc choices =
        Except.error EmptyModelError := by
  intro corpus k tc choices h
  have htab : getTermDictTable corpus k = [] := by
    have h0 : (tokenize corpus).length - k = 0 := by omega
    simp [getTermDictTable, buildTable, h0]
  have hgen : generateWords ⟨corpus, k, none⟩ none tc choices =
      Except.error EmptyModelError := by
    simp [generateWords, startState, htab, EmptyModelError]
  exact ⟨htab, hgen, by simp [generate, hgen, Except.map]⟩

/-- Witness for C5 at the empty corpus and `k = 1`. -/
theorem claim5_witness :
    getTermDictTable "" 1 = [] ∧
    generateWords ⟨"", 1, none⟩ none 15 (fun _ => 0) =
      Except.error EmptyModelError ∧
    generate ⟨"", 1, none⟩ none 15 (fun _ => 0) =
      Except.error EmptyModelError :=
  claim5_empty_model "" 1 15 (fun _ => 0) (by decide)

/-- C6: for `k > 1`, a bare-string seed fails with the invalid-seed-shape
`ValueError` regardless of the stored table (the table is never consulted:
the result is the same for every `term_dict`). -/
theorem claim6_invalid_seed_shape :
    ∀ (corpus : String) (k : Nat) (td : List (Key × List String)) (s : String)
      (tc : Int) (choices : Nat → Nat), 1 < k →
      generateWords ⟨corpus, k, some td⟩ (some (Key.str s)) tc choices =
        Except.error (InvalidSeedShapeError k) := by
  intro corpus k td s tc choices hk
  simp [generateWords, startState, isStr, hk]

/-- Witness for C6: the spec's scenario `k = 2`, seed `"the"`. -/
theorem claim6_witness :
    generateWords
      ⟨"the cat sat on the mat the cat ran", 2,
        some (getTermDictTable "the cat sat on the mat the cat ran" 2)⟩
      (some (Key.str "the")) 15 (fun _ => 0) =
      Except.error (InvalidSeedShapeError 2) :=
  claim6_invalid_seed_shape "the cat sat on the mat the cat ran" 2
    (getTermDictTable "the cat sat on the mat the cat ran" 2) "the" 15
    (fun _ => 0) (by decide)

/-- C7: a correctly shaped seed context absent from the table fails with the
seed-not-found `ValueError` whose message names the missing context; in the
spec's scenario, seed `"zebra"` with `k = 1` produces the message
`Seed term 'zebra' not found in corpus`. -/
theorem claim7_seed_not_found :
    (∀ (corpus : String) (k : Nat) (K : Key) (tc : Int)
      (choices : Nat → Nat), 1 ≤ k → (isStr K = true → k = 1) →
      lookup (getTermDictTable corpus k) K = none →
      generateWords ⟨corpus, k, none⟩ (some K) tc choices =
        Except.error (SeedNotFoundError K)) ∧
    generateWords ⟨"the cat sat on the mat the cat ran", 1, none⟩
      (some (Key.str "zebra")) 15 (fun _ => 0) =
      Except.error (PyErr.valueError "Seed term 'zebra' not found in corpus") := by
  constructor
  · intro corpus k K tc choices hk hshape hlook
    have h1 : (1 < k && isStr K) = false := by
      cases hstr : isStr K
      · simp
      · simp [hshape hstr]
    simp [generateWords, startState, h1, hlook]
  · rfl

/-- Witness for C7 at corpus `"a b"`, `k = 1`, seed `"z"`. -/
theorem claim7_witness :
    generateWords ⟨"a b", 1, none⟩ (some (Key.str "z")) 5 (fun _ => 0) =
      Except.error (SeedNotFoundError (Key.str "z")) :=
  claim7_seed_not_found.1 "a b" 1 (Key.str "z") 5 (fun _ => 0) (by decide)
    (fun _ => rfl) (by decide)

/-- C8 counterexample: at the empty corpus and `k = 1` the total number of
successor entries is 0, but `len(tokens) - 1` is `-1` as the integer
arithmetic of the claim reads: the stated formula fails for corpora with
fewer than `k` tokens. -/
theorem claim8_counterexample :
    sumVals (getTermDictTable "" 1) = 0 ∧
    ((tokenize "").length : Int) - 1 = -1 ∧
    ¬ ((sumVals (getTermDictTable "" 1) : Int) =
        ((tokenize "").length : Int) - 1) := by
  refine ⟨by decide, by decide, by decide⟩

/-- C8 amended: for every corpus and `k`, the sum of successor-list lengths
is `len(tokens) - k` truncated at zero (so `len(tokens) - 1` for `k = 1` on
any non-empty corpus), the number of distinct keys is at most that bound,
and the table's keys are pairwise distinct. -/
theorem claim8_amended_counts :
    ∀ (corpus : String) (k : Nat),
      sumVals (getTermDictTable corpus k) = (tokenize corpus).length - k ∧
      (getTermDictTable corpus k).length ≤ (tokenize corpus).length - k ∧
      ((getTermDictTable corpus k).map Prod.fst).Nodup := by
  intro corpus k
  refine ⟨?_, ?_, ?_⟩
  · have h := sumVals_foldl (tokenize corpus) k
      (List.range ((tokenize corpus).length - k)) []
    simpa [getTermDictTable, buildTable, sumVals] using h
  · have h := length_foldl (tokenize corpus) k
      (List.range ((tokenize corpus).length - k)) []
    simpa [getTermDictTable, buildTable] using h
  · exact nodup_keys_foldl (tokenize corpus) k
      (List.range ((tokenize corpus).length - k)) [] (by simp)

/-- C9: `get_term_dict` computes a pure function of `(corpus, k)` — the
stored `term_dict` field does not influence the result, two instances with
the same corpus and `k` get identical (order-preserved) tables, rebuilding
on the updated instance is idempotent, and the result is cached in
`term_dict`. -/
theorem claim9_build_deterministic :
    ∀ (corpus : String) (k : Nat)
      (td1 td2 : Option (List (Key × List String))),
      (MarkovText.mk corpus k td1).getTermDict.1 = getTermDictTable corpus k ∧
      (MarkovText.mk corpus k td1).getTermDict.1 =
        (MarkovText.mk corpus k td2).getTermDict.1 ∧
      ((MarkovText.mk corpus k td1).getTermDict.2).getTermDict =
        ((MarkovText.mk corpus k td1).getTermDict.1,
          (MarkovText.mk corpus k td1).getTermDict.2) ∧
      ((MarkovText.mk corpus k td1).getTermDict.2).termDict =
        some ((MarkovText.mk corpus k td1).getTermDict.1) := by
  intro corpus k td1 td2
  exact ⟨rfl, rfl, rfl, rfl⟩

/-- C10: every successor list stored in a built table is non-empty, so on a
present key the generation loop's dead-end check never fires: one more
iteration of fuel always appends at least one word. -/
theorem claim10_nonempty_successor_lists :
    ∀ (corpus : String) (k : Nat) (K : Key) (l : List String)
      (choices : Nat → Nat) (fuel step : Nat) (ws : List String),
      lookup (getTermDictTable corpus k) K = some l →
      l ≠ [] ∧
      genLoop (getTermDictTable corpus k) k choices (fuel + 1) step ws K ≠ ws := by
  intro corpus k K l choices fuel step ws hl
  have hne : l ≠ [] := lookup_buildTable_ne_nil (tokenize corpus) k K l hl
  refine ⟨hne, ?_⟩
  have hlen0 : l.length ≠ 0 := fun h => hne (List.length_eq_zero.1 h)
  have hlen := genLoop_length (getTermDictTable corpus k) k choices (fuel + 1)
    step ws K
  have hdraw := genLoopDraws_succ_of_some (getTermDictTable corpus k) k choices
    fuel step ws K l hl hlen0
  intro heq
  rw [heq] at hlen
  omega

/-- Witness for C10 at corpus `"a b"`, `k = 1`, key `"a"`. -/
theorem claim10_witness :
    (["b"] : List String) ≠ [] ∧
    genLoop (getTermDictTable "a b" 1) 1 (fun _ => 0) 1 0 ["a"]
      (Key.str "a") ≠ ["a"] :=
  claim10_nonempty_successor_lists "a b" 1 (Key.str "a") ["b"] (fun _ => 0)
    0 0 ["a"] (by decide)

end MarkovSpec
